import Mathlib

/-!
Verification development for the lead-generation backend.

Strings are modelled as Lean `String`s (packed `List Char`); the
per-character pipelines of the slug utility work on `List Char`.
Database state is modelled as explicit lists of rows, and each HTTP
handler becomes a pure function from its (validated) parameters and the
row lists to `Except ApiError response`.
-/

deriving instance DecidableEq for Except

namespace LeadGen

/-! ## Slug utility (`src/utils/slug_utils.py`) -/

/-- Python `str.lower()` on the ASCII range: `A`–`Z` map to `a`–`z`,
every other character below `0x80` is fixed.  Non-ASCII characters are
discarded by the subsequent `encode('ascii', 'ignore')` step, so their
lowercasing is irrelevant to the pipeline's output on the inputs the
claims quantify over. -/
def pyLower (c : Char) : Char :=
  if 'A' ≤ c ∧ c ≤ 'Z' then Char.ofNat (c.toNat + 32) else c

/-- The characters of the ASCII range matched by Python's regex `\s`
(and stripped by `str.strip()`): space, `\t`, `\n`, `\v`, `\f`, `\r`,
and the file/group/record/unit separators `0x1c`–`0x1f`. -/
def isPySpace (c : Char) : Bool :=
  c == ' ' || c == '\t' || c == '\n' || c == Char.ofNat 11 || c == Char.ofNat 12 ||
    c == '\r' || c == Char.ofNat 28 || c == Char.ofNat 29 || c == Char.ofNat 30 ||
    c == Char.ofNat 31

/-- `c == '-'`, the character class of `re.sub(r'-+', '-', ...)` and
`str.strip('-')`. -/
def isHyphen (c : Char) : Bool := c == '-'

/-- `str.replace(sym, rep)` for a single-character pattern `sym`:
every occurrence of `sym` is replaced by the string `rep`. -/
def replaceChar (sym : Char) (rep : List Char) : List Char → List Char
  | [] => []
  | c :: cs => (if c == sym then rep else [c]) ++ replaceChar sym rep cs

/-- `re.sub(p+, rep, ·)`: replace every maximal run of characters
satisfying `p` by the single character `rep`.  The flag records whether
the previous character was part of a run. -/
def squeezeAux (p : Char → Bool) (rep : Char) : Bool → List Char → List Char
  | _, [] => []
  | prev, c :: cs =>
    if p c then
      if prev then squeezeAux p rep true cs
      else rep :: squeezeAux p rep true cs
    else c :: squeezeAux p rep false cs

def squeeze (p : Char → Bool) (rep : Char) (l : List Char) : List Char :=
  squeezeAux p rep false l

/-- Drop the trailing run of characters satisfying `p`. -/
def dropRightWhile (p : Char → Bool) : List Char → List Char
  | [] => []
  | c :: cs =>
    match dropRightWhile p cs with
    | [] => if p c then [] else [c]
    | d :: ds => c :: d :: ds

/-- Python `str.strip(chars)`: remove the leading and the trailing run
of characters satisfying `p`. -/
def pyStrip (p : Char → Bool) (l : List Char) : List Char :=
  dropRightWhile p (l.dropWhile p)

/-- The `replacements` dict of `generate_slug`, in its iteration order. -/
def symbolReplacements : List (Char × String) :=
  [('&', " and "), ('@', " at "), ('#', " number "),
   ('$', " dollar "), ('%', " percent "), ('+', " plus ")]

/-- The `for symbol, replacement in replacements.items()` loop:
sequentially apply each single-character replacement. -/
def applyReplacements (l : List Char) : List Char :=
  symbolReplacements.foldl (fun acc pr => replaceChar pr.1 pr.2.data acc) l

/-- The character class kept by `re.sub(r'[^a-z0-9\s-]', '', ·)`. -/
def keepChar (c : Char) : Bool :=
  ('a' ≤ c && c ≤ 'z') || ('0' ≤ c && c ≤ '9') || isPySpace c || isHyphen c

/-- The body of `generate_slug` on a non-empty input, stage by stage.
The `NFKD`-normalisation step is the identity on ASCII text and is
followed by `encode('ascii', 'ignore')`, which drops every character
with code point `≥ 0x80`; the pair is modelled by that filter. -/
def slugCore (l : List Char) : List Char :=
  let t1 := l.map pyLower
  let t2 := t1.filter (fun c => c.toNat < 128)
  let t3 := applyReplacements t2
  let t4 := t3.filter keepChar
  let t5 := squeeze isPySpace ' ' t4
  let t6 := pyStrip isPySpace t5
  let t7 := t6.map (fun c => if c == ' ' then '-' else c)
  let t8 := squeeze isHyphen '-' t7
  let t9 := pyStrip isHyphen t8
  if t9.isEmpty then "unnamed".data else t9

/-- `generate_slug` from `src/utils/slug_utils.py`.  `if not text:
return ""` covers both `None` and the empty string; otherwise the
pipeline runs and ends in `return text or 'unnamed'`. -/
def generate_slug (text : Option String) : String :=
  match text with
  | none => ""
  | some s => if s.data.isEmpty then "" else ⟨slugCore s.data⟩

/-! ### `generate_unique_slug` -/

/-- Decimal digits, most significant first (empty for `0`), written
with structural fuel so that it reduces inside the kernel; `fuel ≥ n`
makes the fuel inexhaustible because the recursion is on `n / 10 < n`. -/
def decDigitsAux : Nat → Nat → List Char
  | 0, _ => []
  | fuel + 1, n =>
    if n = 0 then []
    else decDigitsAux fuel (n / 10) ++ [Char.ofNat (48 + n % 10)]

/-- Decimal digits of `n`, most significant first (empty for `0`);
models the decimal rendering used by Python's f-string
`f"{base_slug}-{counter}"`. -/
def decDigits (n : Nat) : List Char := decDigitsAux n n

/-- Decimal rendering of a natural number. -/
def decRepr (n : Nat) : String :=
  if n = 0 then "0" else ⟨decDigits n⟩

/-- The string `f"{base_slug}-{counter}"`. -/
def slugWithCounter (base : String) (k : Nat) : String :=
  base ++ "-" ++ decRepr k

/-- The `while f"{base_slug}-{counter}" in existing_slugs: counter += 1`
loop.  The Python loop has no fuel; it terminates because the set of
existing slugs is finite, and `generate_unique_slug` below runs it with
enough fuel for the two to agree (see `countUp_spec`). -/
def countUp (base : String) (existing : List String) : Nat → Nat → Nat
  | counter, 0 => counter
  | counter, fuel + 1 =>
    if slugWithCounter base counter ∈ existing then
      countUp base existing (counter + 1) fuel
    else counter

/-- `generate_unique_slug` from `src/utils/slug_utils.py`.  The
`existing_slugs` set is modelled as a list (membership is all that is
used). -/
def generate_unique_slug (base_slug : String) (existing_slugs : List String) : String :=
  if base_slug ∈ existing_slugs then
    slugWithCounter base_slug
      (countUp base_slug existing_slugs 1 (existing_slugs.length + 1))
  else base_slug

/-! ## Data model (`src/models/models.py`, `src/config.py`) -/

/-- A row of the `dbo.company` table (`src/models/models.py`).  The
`last_profiled_on` date is an opaque value as far as the endpoints are
concerned. -/
structure Company where
  co_rowid : Int
  company_name : String
  company_website : Option String := none
  linkedin_company_url : Option String := none
  is_profiled : Option Bool := none
  market_size : Option String := none
  company_size : Option String := none
  revenue_threshold : Option String := none
  pain_points : Option String := none
  buying_triggers : Option String := none
  last_profiled_on : Option String := none
  deriving Repr, DecidableEq

/-- A row of the `dbo.job_post` table. -/
structure JobPost where
  jp_rowid : Int
  jp_rowid_company : Int
  job_title : Option String := none
  job_type : Option String := none
  job_location : Option String := none
  job_url : Option String := none
  posted_at : Option String := none
  source : Option String := none
  pay : Option String := none
  deriving Repr, DecidableEq

/-- `Settings` from `src/config.py`. -/
structure Settings where
  default_page_size : Nat := 10
  max_page_size : Nat := 100
  deriving Repr

def settings : Settings := {}

/-- Python truthiness of an `Optional[str]`: `None` and `""` are falsy. -/
def truthy : Option String → Bool
  | none => false
  | some s => !s.isEmpty

/-! ## Response schemas (`src/schemas/schemas.py`) -/

structure CompanyListItem where
  company_name : String
  company_website : Option String
  company_description : String
  company_slug : String
  deriving Repr, DecidableEq

structure CompanyListResponse where
  companies_total : Nat
  companies : List CompanyListItem
  total_pages : Nat
  current_page : Nat
  per_page : Nat
  deriving Repr, DecidableEq

structure JobItem where
  job_title : Option String
  job_description : Option String
  job_location : Option String
  job_type : Option String
  job_url : Option String
  job_posted_date : Option String
  job_pay_rate : Option String
  job_source : Option String
  deriving Repr, DecidableEq

structure CompanyJobsResponse where
  total_position : Nat
  jobs : List JobItem
  total_pages : Nat
  page_size : Nat
  current_page : Nat
  deriving Repr, DecidableEq

/-- The error outcomes a request can take: FastAPI parameter-validation
failure (HTTP 422, from the `Query(ge=..., le=...)` declarations),
`HTTPException(400)`, `HTTPException(404)`, `HTTPException(500)`. -/
inductive ApiError where
  | validationError (param : String)
  | badRequest (detail : String)
  | notFound (detail : String)
  | serverError (detail : String)
  deriving Repr, DecidableEq

/-! ## Query layer (`src/routers/company.py`) -/

/-- Insertion of `a` into `l` before the first element `b` with
`le a b`. -/
def orderedInsertBy (le : α → α → Bool) (a : α) : List α → List α
  | [] => [a]
  | b :: l => if le a b then a :: b :: l else b :: orderedInsertBy le a l

/-- A sort usable by kernel reduction; models the `ORDER BY` clauses.
The claims under verification depend only on the length and the
membership of the sorted list, never on the comparator's tie-breaking,
so any sorting algorithm is an adequate model. -/
def insertionSortBy (le : α → α → Bool) : List α → List α
  | [] => []
  | a :: l => orderedInsertBy le a (insertionSortBy le l)

def pyLowerStr (s : String) : String := ⟨s.data.map pyLower⟩

def isPrefixL (needle hay : List Char) : Bool :=
  match needle, hay with
  | [], _ => true
  | _ :: _, [] => false
  | a :: as, b :: bs => a == b && isPrefixL as bs

def isSubstrL (needle : List Char) : List Char → Bool
  | [] => needle.isEmpty
  | c :: cs => isPrefixL needle (c :: cs) || isSubstrL needle cs

/-- `Company.company_name.ilike(f"%{search}%")`: case-insensitive
substring match (a search term containing SQL wildcard characters would
match more rows; no claim depends on that). -/
def ilikeContains (name search : String) : Bool :=
  isSubstrL (pyLowerStr search).data (pyLowerStr name).data

/-- The filtered company set of `get_companies`: `if search:` applies
the `ilike` filter (falsy `search`, i.e. `None` or `""`, applies
none). -/
def companiesFiltered (search : Option String) (db : List Company) : List Company :=
  match search with
  | some s => if !s.isEmpty then db.filter (fun c => ilikeContains c.company_name s) else db
  | none => db

/-- `math.ceil(total_count / per_page) if total_count > 0 else 0`
(exact ceiling; the Python float division is exact for every row count
a table can hold). -/
def totalPagesOf (total_count per_page : Nat) : Nat :=
  if total_count > 0 then (total_count + per_page - 1) / per_page else 0

/-- `str[:200] + "..." if len(str) > 200 else str`. -/
def truncDesc (s : String) : String :=
  if s.data.length > 200 then ⟨s.data.take 200⟩ ++ "..." else s

/-- The description synthesis of `get_companies` (lines 82–99). -/
def companyDescription (c : Company) : String :=
  let ms := c.market_size.getD ""
  let cs := c.company_size.getD ""
  let rt := c.revenue_threshold.getD ""
  let parts : List String :=
    (if truthy c.market_size then [s!"Market Size: {ms}"] else []) ++
    (if truthy c.company_size then [s!"Company Size: {cs}"] else []) ++
    (if truthy c.revenue_threshold then [s!"Revenue: {rt}"] else [])
  if parts.isEmpty then
    if truthy c.pain_points then truncDesc (c.pain_points.getD "")
    else if truthy c.buying_triggers then truncDesc (c.buying_triggers.getD "")
    else "Company profile information available"
  else String.intercalate " | " parts

/-- The description cascade as the specification words it (claim C5):
if any of market size, company size, revenue threshold is non-empty,
exactly the labelled parts for the non-empty fields in that order
joined by `" | "`; otherwise pain points truncated to 200 characters
with an appended ellipsis when truncated; otherwise buying triggers
under the same truncation rule; otherwise the generic placeholder. -/
def descriptionSpec (c : Company) : String :=
  let ms := c.market_size.getD ""
  let cs := c.company_size.getD ""
  let rt := c.revenue_threshold.getD ""
  if truthy c.market_size || truthy c.company_size || truthy c.revenue_threshold then
    String.intercalate " | "
      ((if truthy c.market_size then [s!"Market Size: {ms}"] else []) ++
       (if truthy c.company_size then [s!"Company Size: {cs}"] else []) ++
       (if truthy c.revenue_threshold then [s!"Revenue: {rt}"] else []))
  else if truthy c.pain_points then truncDesc (c.pain_points.getD "")
  else if truthy c.buying_triggers then truncDesc (c.buying_triggers.getD "")
  else "Company profile information available"

/-- Row-to-item mapping of `get_companies`. -/
def mkCompanyItem (c : Company) : CompanyListItem :=
  { company_name := c.company_name
    company_website := c.company_website
    company_description := companyDescription c
    company_slug := generate_slug (some c.company_name) }

/-- `ORDER BY company_name` on the filtered companies. -/
def companiesSorted (search : Option String) (db : List Company) : List Company :=
  insertionSortBy (fun a b => decide (a.company_name ≤ b.company_name))
    (companiesFiltered search db)

/-- `GET /list` handler body (`get_companies`), after FastAPI has
accepted the query parameters.  `db` is the company table in store
order. -/
def get_companies_handler (page per_page : Nat) (search : Option String)
    (db : List Company) : Except ApiError CompanyListResponse :=
  let per_page := if per_page > settings.max_page_size then settings.max_page_size else per_page
  let offset := (page - 1) * per_page
  let total_count := (companiesFiltered search db).length
  let total_pages := totalPagesOf total_count per_page
  if page > total_pages ∧ total_pages > 0 then
    .error (.badRequest s!"Page {page} does not exist. Total pages: {total_pages}")
  else
    let rows := ((companiesSorted search db).drop offset).take per_page
    .ok { companies_total := total_count
          companies := rows.map mkCompanyItem
          total_pages := total_pages
          current_page := page
          per_page := per_page }

/-- `GET /list` including the FastAPI `Query` constraints of lines
22–24: `page` has `ge=1`, `per_page` has `ge=1, le=100`.  A value
outside those bounds makes FastAPI answer 422 before the handler runs.
(Negative integers, likewise rejected, are outside the `Nat` model.) -/
def get_companies_request (page per_page : Nat) (search : Option String)
    (db : List Company) : Except ApiError CompanyListResponse :=
  if page < 1 then .error (.validationError "page")
  else if per_page < 1 ∨ 100 < per_page then .error (.validationError "per_page")
  else get_companies_handler page per_page search db

/-- The detail payload returned by `get_company_by_slug` (lines
157–170); `company_slug` is the input slug. -/
structure CompanyDetail where
  co_rowid : Int
  company_name : String
  company_website : Option String
  linkedin_company_url : Option String
  is_profiled : Option Bool
  market_size : Option String
  company_size : Option String
  revenue_threshold : Option String
  pain_points : Option String
  buying_triggers : Option String
  last_profiled_on : Option String
  company_slug : String
  deriving Repr, DecidableEq

def companyDetailOf (c : Company) (slug : String) : CompanyDetail :=
  { co_rowid := c.co_rowid
    company_name := c.company_name
    company_website := c.company_website
    linkedin_company_url := c.linkedin_company_url
    is_profiled := c.is_profiled
    market_size := c.market_size
    company_size := c.company_size
    revenue_threshold := c.revenue_threshold
    pain_points := c.pain_points
    buying_triggers := c.buying_triggers
    last_profiled_on := c.last_profiled_on
    company_slug := slug }

/-- `GET /company/{slug}` (`get_company_by_slug`): scan the companies
in store order and return the first whose derived slug matches. -/
def get_company_by_slug (slug : String) (db : List Company) :
    Except ApiError CompanyDetail :=
  match db.find? (fun c => generate_slug (some c.company_name) == slug) with
  | some c => .ok (companyDetailOf c slug)
  | none => .error (.notFound s!"Company with slug \x27{slug}\x27 not found")

/-- Row-to-item mapping of `get_company_jobs` (lines 248–262);
`job_description` is always `None`, and a falsy `posted_at` is mapped
to `None`. -/
def mkJobItem (j : JobPost) : JobItem :=
  { job_title := j.job_title
    job_description := none
    job_location := j.job_location
    job_type := j.job_type
    job_url := j.job_url
    job_posted_date := if truthy j.posted_at then j.posted_at else none
    job_pay_rate := j.pay
    job_source := j.source }

/-- `WHERE jp_rowid_company == company_id` on the job-post table. -/
def jobsForCompany (company_id : Int) (dbJ : List JobPost) : List JobPost :=
  dbJ.filter (fun j => j.jp_rowid_company == company_id)

/-- `ORDER BY jp_rowid DESC` on a company's job posts. -/
def jobsSorted (company_id : Int) (dbJ : List JobPost) : List JobPost :=
  insertionSortBy (fun a b => decide (b.jp_rowid ≤ a.jp_rowid)) (jobsForCompany company_id dbJ)

/-- `GET /{company_id}/jobs` handler body (`get_company_jobs`).  The
`scalar_one_or_none()` company probe returns the row when exactly one
matches, `None` when none does, and raises (a `SQLAlchemyError`, hence
a 500) when several do. -/
def get_company_jobs_handler (company_id : Int) (page page_size : Nat)
    (dbC : List Company) (dbJ : List JobPost) : Except ApiError CompanyJobsResponse :=
  let page_size := if page_size > settings.max_page_size then settings.max_page_size else page_size
  let offset := (page - 1) * page_size
  match dbC.filter (fun c => c.co_rowid == company_id) with
  | [] => .error (.notFound s!"Company with ID {company_id} not found")
  | _ :: _ :: _ => .error (.serverError "Database error occurred while fetching company jobs")
  | [_] =>
    let total_count := (jobsForCompany company_id dbJ).length
    let total_pages := totalPagesOf total_count page_size
    if page > total_pages ∧ total_pages > 0 then
      .error (.badRequest s!"Page {page} does not exist. Total pages: {total_pages}")
    else
      let rows := ((jobsSorted company_id dbJ).drop offset).take page_size
      .ok { total_position := total_count
            jobs := rows.map mkJobItem
            total_pages := total_pages
            page_size := page_size
            current_page := page }

/-- `GET /{company_id}/jobs` including the FastAPI `Query` constraints
of lines 189–190: `page` has `ge=1`, `page_size` has `ge=1, le=100`. -/
def get_company_jobs_request (company_id : Int) (page page_size : Nat)
    (dbC : List Company) (dbJ : List JobPost) : Except ApiError CompanyJobsResponse :=
  if page < 1 then .error (.validationError "page")
  else if page_size < 1 ∨ 100 < page_size then .error (.validationError "page_size")
  else get_company_jobs_handler company_id page page_size dbC dbJ

/-! ## Lemma layer: the slug pipeline -/

/-- The characters a slug may contain besides being produced by the
`or 'unnamed'` fallback: lowercase ASCII letters, digits, hyphen. -/
def lowAlpha (c : Char) : Bool :=
  ('a' ≤ c && c ≤ 'z') || ('0' ≤ c && c ≤ '9') || c == '-'

/-- The alphabet of claim C3: ASCII letters (either case), digits,
hyphens. -/
def claimAlpha (c : Char) : Bool :=
  ('A' ≤ c && c ≤ 'Z') || lowAlpha c

/-- No two adjacent characters of the list both satisfy `p`. -/
def noRun (p : Char → Bool) : List Char → Bool
  | a :: b :: l => (!(p a && p b)) && noRun p (b :: l)
  | _ => true

/-- The numeric value of a most-significant-first digit string; inverse
of `decDigits`, used to prove counter strings distinct. -/
def digitsVal (l : List Char) : Nat :=
  l.foldl (fun a c => 10 * a + (c.toNat - 48)) 0

/-! ### Sample rows used by concrete witnesses -/

def cSample : Company :=
  { co_rowid := 1, company_name := "Acme Widgets",
    market_size := some "Large", pain_points := some "slow onboarding" }

def cSample2 : Company :=
  { co_rowid := 2, company_name := "Beta LLC" }

def jSample : JobPost :=
  { jp_rowid := 10, jp_rowid_company := 1, job_title := some "Engineer" }

theorem toNat_ofNat_valid (n : Nat) (h : n < 55296) : (Char.ofNat n).toNat = n := by
  simp [Char.ofNat, Char.toNat, Nat.isValidChar, h, Char.ofNatAux, UInt32.toNat,
    UInt32.ofNatTruncate, UInt32.ofNat]

theorem lowAlpha_iff {c : Char} : lowAlpha c = true ↔
    (97 ≤ c.toNat ∧ c.toNat ≤ 122) ∨ (48 ≤ c.toNat ∧ c.toNat ≤ 57) ∨ c = '-' := by
  simp [lowAlpha, Char.le_def, UInt32.le_def, BitVec.le_def, Char.toNat, UInt32.toNat]
  tauto

theorem claimAlpha_iff {c : Char} : claimAlpha c = true ↔
    (65 ≤ c.toNat ∧ c.toNat ≤ 90) ∨ lowAlpha c = true := by
  simp [claimAlpha, Char.le_def, UInt32.le_def, BitVec.le_def, Char.toNat, UInt32.toNat]

theorem lowAlpha_toNat {c : Char} (h : lowAlpha c = true) :
    (97 ≤ c.toNat ∧ c.toNat ≤ 122) ∨ (48 ≤ c.toNat ∧ c.toNat ≤ 57) ∨ c.toNat = 45 := by
  rcases lowAlpha_iff.mp h with h | h | h
  · exact Or.inl h
  · exact Or.inr (Or.inl h)
  · subst h; right; right; rfl

theorem upper_range_iff {c : Char} : ('A' ≤ c ∧ c ≤ 'Z') ↔ (65 ≤ c.toNat ∧ c.toNat ≤ 90) := by
  simp [Char.le_def, UInt32.le_def, BitVec.le_def, Char.toNat, UInt32.toNat]

theorem pyLower_fixed {c : Char} (h : ¬(65 ≤ c.toNat ∧ c.toNat ≤ 90)) : pyLower c = c := by
  unfold pyLower
  rw [if_neg]
  exact fun hc => h (upper_range_iff.mp hc)

theorem lowAlpha_pyLower_fixed {c : Char} (h : lowAlpha c = true) : pyLower c = c := by
  refine pyLower_fixed ?_
  rcases lowAlpha_toNat h with h | h | h <;> omega

theorem pyLower_lowAlpha {c : Char} (h : claimAlpha c = true) : lowAlpha (pyLower c) = true := by
  rcases claimAlpha_iff.mp h with hu | hl
  · have hu' : 'A' ≤ c ∧ c ≤ 'Z' := upper_range_iff.mpr hu
    have he : pyLower c = Char.ofNat (c.toNat + 32) := by simp [pyLower, hu']
    have ht : (Char.ofNat (c.toNat + 32)).toNat = c.toNat + 32 :=
      toNat_ofNat_valid _ (by omega)
    rw [he, lowAlpha_iff]
    left
    omega
  · rw [lowAlpha_pyLower_fixed hl]; exact hl

theorem lowAlpha_ascii {c : Char} (h : lowAlpha c = true) : decide (c.toNat < 128) = true := by
  rw [decide_eq_true_eq]
  rcases lowAlpha_toNat h with h | h | h <;> omega

theorem isPySpace_toNat {c : Char} (h : isPySpace c = true) : c.toNat ≤ 32 := by
  simp only [isPySpace, Bool.or_eq_true, beq_iff_eq] at h
  rcases h with ((((((((h | h) | h) | h) | h) | h) | h) | h) | h) | h <;> subst h <;> decide

theorem lowAlpha_not_pySpace {c : Char} (h : lowAlpha c = true) : isPySpace c = false := by
  cases hs : isPySpace c with
  | false => rfl
  | true =>
    have h1 := isPySpace_toNat hs
    rcases lowAlpha_toNat h with h | h | h <;> omega

theorem lowAlpha_keepChar {c : Char} (h : lowAlpha c = true) : keepChar c = true := by
  simp only [lowAlpha, Bool.or_eq_true] at h
  simp only [keepChar, isHyphen, Bool.or_eq_true]
  tauto

theorem lowAlpha_ne_space {c : Char} (h : lowAlpha c = true) : (c == ' ') = false := by
  cases he : c == ' ' with
  | false => rfl
  | true =>
    rw [beq_iff_eq] at he
    subst he
    exact absurd h (by decide)

theorem lowAlpha_not_sym {c d : Char} (h : lowAlpha c = true) (hd : lowAlpha d = false) :
    (c == d) = false := by
  cases he : c == d with
  | false => rfl
  | true => rw [beq_iff_eq] at he; subst he; rw [h] at hd; cases hd

/-! ### `replaceChar` -/

theorem replaceChar_eq_self (sym : Char) (rep : List Char) :
    ∀ l : List Char, (∀ c ∈ l, (c == sym) = false) → replaceChar sym rep l = l := by
  intro l
  induction l with
  | nil => intro _; rfl
  | cons c cs ih =>
    intro h
    have hc := h c (List.mem_cons_self c cs)
    simp only [replaceChar, hc, Bool.false_eq_true, if_false, List.singleton_append,
      List.cons.injEq, true_and]
    exact ih fun d hd => h d (List.mem_cons_of_mem _ hd)

theorem applyReplacements_eq_self (l : List Char) (h : ∀ c ∈ l, lowAlpha c = true) :
    applyReplacements l = l := by
  have step : ∀ d : Char, lowAlpha d = false → ∀ rep, replaceChar d rep l = l := fun d hd rep =>
    replaceChar_eq_self d rep l (fun c hc => lowAlpha_not_sym (h c hc) hd)
  simp only [applyReplacements, symbolReplacements, List.foldl_cons, List.foldl_nil]
  rw [step '&' (by decide) _, step '@' (by decide) _, step '#' (by decide) _,
    step '$' (by decide) _, step '%' (by decide) _, step '+' (by decide) _]

/-! ### `squeeze` -/

theorem squeezeAux_of_no_p (p : Char → Bool) (rep : Char) :
    ∀ (l : List Char), (∀ c ∈ l, p c = false) → ∀ b, squeezeAux p rep b l = l := by
  intro l
  induction l with
  | nil => intro _ b; cases b <;> rfl
  | cons c cs ih =>
    intro h b
    have hc := h c (List.mem_cons_self c cs)
    simp only [squeezeAux, hc, Bool.false_eq_true, if_false, List.cons.injEq, true_and]
    exact ih (fun d hd => h d (List.mem_cons_of_mem _ hd)) false

theorem squeezeAux_true_head (p : Char → Bool) (rep : Char) :
    ∀ (l : List Char) (c : Char), (squeezeAux p rep true l).head? = some c → p c = false := by
  intro l
  induction l with
  | nil => intro c h; cases h
  | cons a as ih =>
    intro c h
    by_cases ha : p a = true
    · simp only [squeezeAux, ha, if_true] at h
      exact ih c h
    · rw [Bool.not_eq_true] at ha
      simp only [squeezeAux, ha, Bool.false_eq_true, if_false, List.head?_cons,
        Option.some.injEq] at h
      subst h; exact ha

theorem mem_squeezeAux (p : Char → Bool) (rep : Char) :
    ∀ (l : List Char) (b : Bool) (c : Char), c ∈ squeezeAux p rep b l → c = rep ∨ c ∈ l := by
  intro l
  induction l with
  | nil => intro b c h; cases b <;> cases h
  | cons a as ih =>
    intro b c h
    by_cases ha : p a = true
    · cases b with
      | true =>
        simp only [squeezeAux, ha, if_true] at h
        rcases ih true c h with h' | h'
        · exact Or.inl h'
        · exact Or.inr (List.mem_cons_of_mem _ h')
      | false =>
        simp only [squeezeAux, ha, if_true] at h
        rcases List.mem_cons.mp h with h' | h'
        · exact Or.inl h'
        · rcases ih true c h' with h'' | h''
          · exact Or.inl h''
          · exact Or.inr (List.mem_cons_of_mem _ h'')
    · rw [Bool.not_eq_true] at ha
      simp only [squeezeAux, ha, Bool.false_eq_true, if_false] at h
      rcases List.mem_cons.mp h with h' | h'
      · subst h'; exact Or.inr (List.mem_cons_self _ _)
      · rcases ih false c h' with h'' | h''
        · exact Or.inl h''
        · exact Or.inr (List.mem_cons_of_mem _ h'')

theorem noRun_tail_of (p : Char → Bool) (a : Char) (l : List Char)
    (h : noRun p (a :: l) = true) : noRun p l = true := by
  cases l with
  | nil => rfl
  | cons b bs => exact (Bool.and_eq_true_iff.mp h).2

theorem noRun_cons_of (p : Char → Bool) (a : Char) (l : List Char)
    (hl : noRun p l = true) (h : ∀ b, l.head? = some b → (p a && p b) = false) :
    noRun p (a :: l) = true := by
  cases l with
  | nil => rfl
  | cons b bs =>
    simp only [noRun, Bool.and_eq_true_iff]
    exact ⟨by rw [h b rfl]; rfl, hl⟩

theorem noRun_cons_pair (p : Char → Bool) (a b : Char) (l : List Char)
    (h : noRun p (a :: b :: l) = true) : (p a && p b) = false := by
  simp only [noRun, Bool.and_eq_true_iff] at h
  rcases h with ⟨h1, _⟩
  cases hp : (p a && p b)
  · rfl
  · rw [hp] at h1; cases h1

theorem noRun_squeezeAux (p : Char → Bool) (rep : Char) :
    ∀ (l : List Char) (b : Bool), noRun p (squeezeAux p rep b l) = true := by
  intro l
  induction l with
  | nil => intro b; cases b <;> rfl
  | cons a as ih =>
    intro b
    by_cases ha : p a = true
    · cases b with
      | true => simp only [squeezeAux, ha, if_true]; exact ih true
      | false =>
        simp only [squeezeAux, ha, if_true]
        refine noRun_cons_of p rep _ (ih true) ?_
        intro d hd
        rw [squeezeAux_true_head p rep as d hd, Bool.and_false]
    · rw [Bool.not_eq_true] at ha
      simp only [squeezeAux, ha, Bool.false_eq_true, if_false]
      refine noRun_cons_of p a _ (ih false) ?_
      intro d _
      rw [ha, Bool.false_and]

theorem squeezeAux_true_of_head (p : Char → Bool) (rep : Char) (l : List Char)
    (h : ∀ c, l.head? = some c → p c = false) :
    squeezeAux p rep true l = squeezeAux p rep false l := by
  cases l with
  | nil => rfl
  | cons a as =>
    have ha := h a rfl
    simp only [squeezeAux, ha, Bool.false_eq_true, if_false]

theorem squeezeAux_eq_self (p : Char → Bool) (rep : Char) :
    ∀ l : List Char, (∀ c ∈ l, p c = true → c = rep) → noRun p l = true →
      squeezeAux p rep false l = l := by
  intro l
  induction l with
  | nil => intro _ _; rfl
  | cons a as ih =>
    intro hmem hnr
    by_cases ha : p a = true
    · have ha' : a = rep := hmem a (List.mem_cons_self a as) ha
      have hhead : ∀ c, as.head? = some c → p c = false := by
        intro d hd
        cases as with
        | nil => cases hd
        | cons b bs =>
          simp only [List.head?_cons, Option.some.injEq] at hd
          subst hd
          have hpair := noRun_cons_pair p a b bs hnr
          rw [ha, Bool.true_and] at hpair
          exact hpair
      simp only [squeezeAux, ha, if_true]
      rw [squeezeAux_true_of_head p rep as hhead,
        ih (fun d hd hp => hmem d (List.mem_cons_of_mem _ hd) hp) (noRun_tail_of p a as hnr),
        ← ha']
      simp
    · rw [Bool.not_eq_true] at ha
      simp only [squeezeAux, ha, Bool.false_eq_true, if_false, List.cons.injEq, true_and]
      exact ih (fun d hd hp => hmem d (List.mem_cons_of_mem _ hd) hp) (noRun_tail_of p a as hnr)

/-! ### `dropRightWhile`, `pyStrip` -/

theorem dropWhile_of_no_p (p : Char → Bool) (l : List Char)
    (h : ∀ c, l.head? = some c → p c = false) : l.dropWhile p = l := by
  cases l with
  | nil => rfl
  | cons a as => simp [List.dropWhile_cons, h a rfl]

theorem mem_dropWhile (p : Char → Bool) :
    ∀ (l : List Char) (c : Char), c ∈ l.dropWhile p → c ∈ l := by
  intro l
  induction l with
  | nil => intro c h; cases h
  | cons a as ih =>
    intro c h
    rw [List.dropWhile_cons] at h
    split at h
    · exact List.mem_cons_of_mem _ (ih c h)
    · exact h

theorem head_dropWhile_false (p : Char → Bool) (l : List Char) (c : Char)
    (h : (l.dropWhile p).head? = some c) : p c = false := by
  have hm := List.head?_dropWhile_not p l
  rw [h] at hm
  exact hm

theorem noRun_dropWhile (p q : Char → Bool) :
    ∀ l : List Char, noRun q l = true → noRun q (l.dropWhile p) = true := by
  intro l
  induction l with
  | nil => exact fun h => h
  | cons a as ih =>
    intro h
    rw [List.dropWhile_cons]
    split
    · exact ih (noRun_tail_of q a as h)
    · exact h

theorem getLast?_mem_of (l : List Char) (c : Char) (h : l.getLast? = some c) : c ∈ l := by
  induction l with
  | nil => cases h
  | cons a as ih =>
    cases as with
    | nil =>
      simp only [List.getLast?_singleton, Option.some.injEq] at h
      subst h
      exact List.mem_cons_self _ _
    | cons b bs =>
      rw [List.getLast?_cons_cons] at h
      exact List.mem_cons_of_mem _ (ih h)

theorem dropRightWhile_cons (p : Char → Bool) (a : Char) (as : List Char) :
    dropRightWhile p (a :: as) =
      match dropRightWhile p as with
      | [] => if p a then [] else [a]
      | d :: ds => a :: d :: ds := rfl

theorem dropRightWhile_head (p : Char → Bool) :
    ∀ l : List Char, dropRightWhile p l ≠ [] → (dropRightWhile p l).head? = l.head? := by
  intro l
  induction l with
  | nil => intro h; exact absurd rfl h
  | cons a as _ =>
    intro h
    rw [dropRightWhile_cons] at h ⊢
    cases hrec : dropRightWhile p as with
    | nil =>
      by_cases hpa : p a = true
      · rw [hrec] at h; simp [hpa] at h
      · simp [hpa]
    | cons d ds => simp

theorem dropRightWhile_getLast (p : Char → Bool) :
    ∀ (l : List Char) (c : Char), (dropRightWhile p l).getLast? = some c → p c = false := by
  intro l
  induction l with
  | nil => intro c h; cases h
  | cons a as ih =>
    intro c h
    rw [dropRightWhile_cons] at h
    cases hrec : dropRightWhile p as with
    | nil =>
      rw [hrec] at h
      by_cases hpa : p a = true
      · simp [hpa] at h
      · simp [hpa] at h
        subst h
        rw [Bool.not_eq_true] at hpa
        exact hpa
    | cons d ds =>
      rw [hrec] at h
      have h' : (a :: d :: ds).getLast? = some c := h
      rw [List.getLast?_cons_cons] at h'
      exact ih c (by rw [hrec]; exact h')

theorem mem_dropRightWhile (p : Char → Bool) :
    ∀ (l : List Char) (c : Char), c ∈ dropRightWhile p l → c ∈ l := by
  intro l
  induction l with
  | nil => intro c h; cases h
  | cons a as ih =>
    intro c h
    rw [dropRightWhile_cons] at h
    cases hrec : dropRightWhile p as with
    | nil =>
      rw [hrec] at h
      by_cases hpa : p a = true
      · simp [hpa] at h
      · simp [hpa] at h
        subst h
        exact List.mem_cons_self _ _
    | cons d ds =>
      rw [hrec] at h
      have h' : c ∈ a :: d :: ds := h
      rcases List.mem_cons.mp h' with h1 | h1
      · subst h1; exact List.mem_cons_self _ _
      · exact List.mem_cons_of_mem _ (ih c (by rw [hrec]; exact h1))

theorem noRun_dropRightWhile (p : Char → Bool) :
    ∀ l : List Char, noRun p l = true → noRun p (dropRightWhile p l) = true := by
  intro l
  induction l with
  | nil => exact fun h => h
  | cons a as ih =>
    intro h
    rw [dropRightWhile_cons]
    cases hrec : dropRightWhile p as with
    | nil =>
      by_cases hpa : p a = true <;> simp [hpa, noRun]
    | cons d ds =>
      show noRun p (a :: d :: ds) = true
      refine noRun_cons_of p a _ ?_ ?_
      · have hr := ih (noRun_tail_of p a as h)
        rw [hrec] at hr
        exact hr
      · intro b hb
        simp only [List.head?_cons, Option.some.injEq] at hb
        subst hb
        have hne : dropRightWhile p as ≠ [] := by rw [hrec]; simp
        have hh := dropRightWhile_head p as hne
        rw [hrec] at hh
        cases as with
        | nil => exact List.noConfusion (show ([] : List Char) = d :: ds from hrec)
        | cons e es =>
          simp only [List.head?_cons, Option.some.injEq] at hh
          rw [hh]
          exact noRun_cons_pair p a e es h

theorem dropRightWhile_eq_self (p : Char → Bool) :
    ∀ l : List Char, (∀ c, l.getLast? = some c → p c = false) → dropRightWhile p l = l := by
  intro l
  induction l with
  | nil => intro _; rfl
  | cons a as ih =>
    intro h
    cases as with
    | nil =>
      have ha := h a (by simp)
      simp [dropRightWhile, ha]
    | cons b bs =>
      have hrec : dropRightWhile p (b :: bs) = b :: bs :=
        ih (fun c hc => h c (by rw [List.getLast?_cons_cons]; exact hc))
      rw [dropRightWhile_cons, hrec]

theorem pyStrip_eq_self (p : Char → Bool) (l : List Char)
    (hh : ∀ c, l.head? = some c → p c = false)
    (hl : ∀ c, l.getLast? = some c → p c = false) : pyStrip p l = l := by
  unfold pyStrip
  rw [dropWhile_of_no_p p l hh, dropRightWhile_eq_self p l hl]

theorem pyStrip_of_no_p (p : Char → Bool) (l : List Char)
    (h : ∀ c ∈ l, p c = false) : pyStrip p l = l := by
  refine pyStrip_eq_self p l ?_ ?_
  · intro c hc
    cases l with
    | nil => cases hc
    | cons a as =>
      simp only [List.head?_cons, Option.some.injEq] at hc
      subst hc
      exact h a (List.mem_cons_self _ _)
  · exact fun c hc => h c (getLast?_mem_of l c hc)

theorem mem_pyStrip (p : Char → Bool) (l : List Char) (c : Char)
    (h : c ∈ pyStrip p l) : c ∈ l :=
  mem_dropWhile p l c (mem_dropRightWhile p _ c h)

theorem noRun_pyStrip (p : Char → Bool) (l : List Char) (h : noRun p l = true) :
    noRun p (pyStrip p l) = true :=
  noRun_dropRightWhile p _ (noRun_dropWhile p p l h)

theorem pyStrip_head (p : Char → Bool) (l : List Char) (c : Char)
    (h : (pyStrip p l).head? = some c) : p c = false := by
  unfold pyStrip at h
  have hne : dropRightWhile p (l.dropWhile p) ≠ [] := by
    intro he
    rw [he] at h
    cases h
  rw [dropRightWhile_head p _ hne] at h
  exact head_dropWhile_false p l c h

theorem pyStrip_getLast (p : Char → Bool) (l : List Char) (c : Char)
    (h : (pyStrip p l).getLast? = some c) : p c = false :=
  dropRightWhile_getLast p _ c h

/-! ### The slug pipeline on normalised text -/

theorem map_eq_self_of (f : Char → Char) :
    ∀ l : List Char, (∀ c ∈ l, f c = c) → l.map f = l := by
  intro l
  induction l with
  | nil => intro _; rfl
  | cons a as ih =>
    intro h
    rw [List.map_cons, h a (List.mem_cons_self a as),
      ih (fun c hc => h c (List.mem_cons_of_mem _ hc))]

theorem squeeze_of_no_p (p : Char → Bool) (rep : Char) (l : List Char)
    (h : ∀ c ∈ l, p c = false) : squeeze p rep l = l :=
  squeezeAux_of_no_p p rep l h false

theorem noRun_squeeze (p : Char → Bool) (rep : Char) (l : List Char) :
    noRun p (squeeze p rep l) = true := noRun_squeezeAux p rep l false

theorem mem_squeeze (p : Char → Bool) (rep : Char) (l : List Char) (c : Char)
    (h : c ∈ squeeze p rep l) : c = rep ∨ c ∈ l := mem_squeezeAux p rep l false c h

theorem squeeze_eq_self (p : Char → Bool) (rep : Char) (l : List Char)
    (hmem : ∀ c ∈ l, p c = true → c = rep) (h : noRun p l = true) :
    squeeze p rep l = l := squeezeAux_eq_self p rep l hmem h

/-- On input whose lowercasing consists of lowercase letters, digits and
hyphens, every stage of `slugCore` other than the hyphen squeezing and
stripping is the identity. -/
theorem slugCore_eq_hyphen_stage (l : List Char)
    (h : ∀ c ∈ l.map pyLower, lowAlpha c = true) :
    slugCore l =
      (if (pyStrip isHyphen (squeeze isHyphen '-' (l.map pyLower))).isEmpty then "unnamed".data
       else pyStrip isHyphen (squeeze isHyphen '-' (l.map pyLower))) := by
  simp only [slugCore]
  rw [List.filter_eq_self.mpr (fun c hc => lowAlpha_ascii (h c hc))]
  rw [applyReplacements_eq_self _ h]
  rw [List.filter_eq_self.mpr (fun c hc => lowAlpha_keepChar (h c hc))]
  rw [squeeze_of_no_p _ _ _ (fun c hc => lowAlpha_not_pySpace (h c hc))]
  rw [pyStrip_of_no_p _ _ (fun c hc => lowAlpha_not_pySpace (h c hc))]
  rw [map_eq_self_of _ _ (fun c hc => by simp [lowAlpha_ne_space (h c hc)])]

/-- A non-empty list of lowercase-alphabet characters with no hyphen
run and no hyphen at either end is a fixed point of `slugCore`. -/
theorem slugCore_fixed (y : List Char)
    (hmem : ∀ c ∈ y, lowAlpha c = true)
    (hnr : noRun isHyphen y = true)
    (hhead : ∀ c, y.head? = some c → isHyphen c = false)
    (hlast : ∀ c, y.getLast? = some c → isHyphen c = false)
    (hne : y ≠ []) : slugCore y = y := by
  have hmap : y.map pyLower = y :=
    map_eq_self_of _ y (fun c hc => lowAlpha_pyLower_fixed (hmem c hc))
  have h' : ∀ c ∈ y.map pyLower, lowAlpha c = true := by rw [hmap]; exact hmem
  rw [slugCore_eq_hyphen_stage y h', hmap]
  rw [squeeze_eq_self isHyphen '-' y
    (fun c _ hc => by rwa [isHyphen, beq_iff_eq] at hc) hnr]
  rw [pyStrip_eq_self isHyphen y hhead hlast]
  have hie : y.isEmpty = false := by
    cases y with
    | nil => exact absurd rfl hne
    | cons a as => rfl
  rw [hie]
  simp

/-- The hyphen squeeze-and-strip of lowercase-alphabet text satisfies
the fixed-point conditions of `slugCore_fixed`. -/
theorem slugNormal (l : List Char) (h : ∀ c ∈ l, lowAlpha c = true) :
    (∀ c ∈ pyStrip isHyphen (squeeze isHyphen '-' l), lowAlpha c = true) ∧
    noRun isHyphen (pyStrip isHyphen (squeeze isHyphen '-' l)) = true ∧
    (∀ c, (pyStrip isHyphen (squeeze isHyphen '-' l)).head? = some c → isHyphen c = false) ∧
    (∀ c, (pyStrip isHyphen (squeeze isHyphen '-' l)).getLast? = some c → isHyphen c = false) := by
  refine ⟨?_, ?_, ?_, ?_⟩
  · intro c hc
    rcases mem_squeeze isHyphen '-' l c (mem_pyStrip _ _ c hc) with h1 | h1
    · subst h1; decide
    · exact h c h1
  · exact noRun_pyStrip _ _ (noRun_squeeze _ _ _)
  · exact fun c hc => pyStrip_head _ _ c hc
  · exact fun c hc => pyStrip_getLast _ _ c hc

theorem slugCore_ne_nil (l : List Char) : slugCore l ≠ [] := by
  simp only [slugCore]
  split
  · decide
  · next h9 =>
    intro he
    apply h9
    rw [he]
    rfl

theorem generate_slug_some (s : String) :
    generate_slug (some s) = if s.data.isEmpty then "" else ⟨slugCore s.data⟩ := rfl

/-! ## Claims -/

/-- C1, counterexample: the claim asserts `generate_slug(None) == "unnamed"`
and `generate_slug("") == "unnamed"`, but the early return
`if not text: return ""` yields the empty string for both, so the
function does return an empty result on those inputs. -/
theorem generate_slug_empty_not_unnamed :
    generate_slug (some "") = "" ∧ generate_slug (some "") ≠ "unnamed" ∧
    generate_slug none = "" ∧ generate_slug none ≠ "unnamed" := by
  refine ⟨rfl, by decide, rfl, by decide⟩

/-- C1 (amended): `generate_slug` is deterministic and total, with
`generate_slug(None) = ""` and `generate_slug("") = ""`; every
non-empty input — including purely symbolic strings such as `"!!!"`,
which maps to `"unnamed"` — yields a non-empty output. -/
theorem generate_slug_totality_amended :
    generate_slug none = "" ∧ generate_slug (some "") = "" ∧
    generate_slug (some "!!!") = "unnamed" ∧
    ∀ s : String, s ≠ "" → generate_slug (some s) ≠ "" := by
  refine ⟨rfl, rfl, by decide, ?_⟩
  intro s hs
  have hd : s.data ≠ [] := by
    intro he
    exact hs (String.ext_iff.mpr (by rw [he]))
  have hie : s.data.isEmpty = false := by
    cases hdata : s.data with
    | nil => exact absurd hdata hd
    | cons a as => rfl
  rw [generate_slug_some, hie]
  simp only [Bool.false_eq_true, if_false]
  intro he
  exact slugCore_ne_nil s.data (by simpa [String.ext_iff] using he)

/-- C1 witness: the amended totality theorem applied to the non-empty
input `"x"`. -/
theorem generate_slug_totality_amended_witness : generate_slug (some "x") ≠ "" :=
  generate_slug_totality_amended.2.2.2 "x" (by decide)

/-- C2: the documented example claims
`generate_slug("Tech@Corp Solutions!") == "techcorp-solutions"`, but the
code replaces `@` by the padded `" at "` before stripping, so it
evaluates to `"tech-at-corp-solutions"`, contradicting the docstring of
`generate_slug` itself. -/
theorem generate_slug_tech_at_corp :
    generate_slug (some "Tech@Corp Solutions!") = "tech-at-corp-solutions" ∧
    generate_slug (some "Tech@Corp Solutions!") ≠ "techcorp-solutions" := by
  refine ⟨by decide, by decide⟩

/-- C3: `generate_slug` is idempotent on every string made of ASCII
letters, digits and hyphens. -/
theorem generate_slug_idempotent (s : String)
    (h : ∀ c ∈ s.data, claimAlpha c = true) :
    generate_slug (some (generate_slug (some s))) = generate_slug (some s) := by
  by_cases hd : s.data.isEmpty = true
  · have h1 : generate_slug (some s) = "" := by
      rw [generate_slug_some, hd]
      simp
    rw [h1]
    decide
  · have hd' : s.data.isEmpty = false := by
      cases he : s.data.isEmpty with
      | false => rfl
      | true => exact absurd he hd
    have hlow : ∀ c ∈ s.data.map pyLower, lowAlpha c = true := by
      intro c hc
      rcases List.mem_map.mp hc with ⟨a, ha, rfl⟩
      exact pyLower_lowAlpha (h a ha)
    have h1 : generate_slug (some s) = ⟨slugCore s.data⟩ := by
      rw [generate_slug_some, hd']
      simp
    have hcore := slugCore_eq_hyphen_stage s.data hlow
    obtain ⟨hm, hnr, hh, hl⟩ := slugNormal (s.data.map pyLower) hlow
    by_cases hye :
        (pyStrip isHyphen (squeeze isHyphen '-' (s.data.map pyLower))).isEmpty = true
    · have h2 : generate_slug (some s) = "unnamed" := by
        rw [h1]
        apply String.ext_iff.mpr
        rw [hcore, hye]
        simp
      rw [h2]
      decide
    · have hye' :
          (pyStrip isHyphen (squeeze isHyphen '-' (s.data.map pyLower))).isEmpty = false := by
        cases he :
            (pyStrip isHyphen (squeeze isHyphen '-' (s.data.map pyLower))).isEmpty with
        | false => rfl
        | true => exact absurd he hye
      have hyne : pyStrip isHyphen (squeeze isHyphen '-' (s.data.map pyLower)) ≠ [] := by
        intro he
        rw [he] at hye'
        cases hye'
      have h2 : generate_slug (some s) =
          ⟨pyStrip isHyphen (squeeze isHyphen '-' (s.data.map pyLower))⟩ := by
        rw [h1]
        apply String.ext_iff.mpr
        rw [hcore, hye']
        simp
      rw [h2, generate_slug_some]
      have hdie : (String.mk (pyStrip isHyphen (squeeze isHyphen '-'
          (s.data.map pyLower)))).data.isEmpty = false := hye'
      rw [hdie]
      simp only [Bool.false_eq_true, if_false]
      exact congrArg String.mk (slugCore_fixed _ hm hnr hh hl hyne)

/-- C3 witness: idempotence at the concrete input `"A--B-"`. -/
theorem generate_slug_idempotent_witness :
    generate_slug (some (generate_slug (some "A--B-"))) = generate_slug (some "A--B-") :=
  generate_slug_idempotent "A--B-" (by decide)

/-! ### `generate_unique_slug` (claim C9) -/

theorem digitsVal_append_digit (xs : List Char) (c : Char) :
    digitsVal (xs ++ [c]) = 10 * digitsVal xs + (c.toNat - 48) := by
  simp [digitsVal, List.foldl_append]

theorem digitsVal_decDigitsAux :
    ∀ fuel n, n ≤ fuel → digitsVal (decDigitsAux fuel n) = n := by
  intro fuel
  induction fuel with
  | zero =>
    intro n h
    have h0 : n = 0 := by omega
    subst h0
    rfl
  | succ f ih =>
    intro n h
    by_cases h0 : n = 0
    · subst h0; rfl
    · simp only [decDigitsAux, h0, if_false]
      rw [digitsVal_append_digit]
      have hdiv : n / 10 ≤ f := by
        have := Nat.div_lt_self (Nat.pos_of_ne_zero h0) (show 1 < 10 by omega)
        omega
      rw [ih (n / 10) hdiv]
      have hmod : n % 10 < 10 := Nat.mod_lt _ (by omega)
      have hchar : (Char.ofNat (48 + n % 10)).toNat = 48 + n % 10 :=
        toNat_ofNat_valid _ (by omega)
      rw [hchar]
      omega

theorem decDigits_val (n : Nat) : digitsVal (decDigits n) = n :=
  digitsVal_decDigitsAux n n (Nat.le_refl n)

theorem decRepr_pos_data (n : Nat) (h : 1 ≤ n) : (decRepr n).data = decDigits n := by
  unfold decRepr
  rw [if_neg (by omega)]

theorem slugWithCounter_inj (base : String) (k k' : Nat) (hk : 1 ≤ k) (hk' : 1 ≤ k')
    (h : slugWithCounter base k = slugWithCounter base k') : k = k' := by
  unfold slugWithCounter at h
  have hd := String.ext_iff.mp h
  have hd' : (base ++ "-").data ++ (decRepr k).data = (base ++ "-").data ++ (decRepr k').data := by
    simpa [String.data_append] using hd
  have he := List.append_cancel_left hd'
  rw [decRepr_pos_data k hk, decRepr_pos_data k' hk'] at he
  have := congrArg digitsVal he
  rwa [decDigits_val, decDigits_val] at this

theorem countUp_spec (base : String) (existing : List String) :
    ∀ fuel start : Nat,
      (∃ j, start ≤ j ∧ j < start + fuel ∧ slugWithCounter base j ∉ existing) →
      slugWithCounter base (countUp base existing start fuel) ∉ existing ∧
      start ≤ countUp base existing start fuel ∧
      ∀ j, start ≤ j → j < countUp base existing start fuel →
        slugWithCounter base j ∈ existing := by
  intro fuel
  induction fuel with
  | zero =>
    intro start h
    obtain ⟨j, hj1, hj2, _⟩ := h
    omega
  | succ f ih =>
    intro start h
    obtain ⟨j, hj1, hj2, hj3⟩ := h
    by_cases hmem : slugWithCounter base start ∈ existing
    · have hstep : countUp base existing start (f + 1) =
          countUp base existing (start + 1) f := by
        simp [countUp, hmem]
      have hex : ∃ i, start + 1 ≤ i ∧ i < (start + 1) + f ∧
          slugWithCounter base i ∉ existing := by
        refine ⟨j, ?_, by omega, hj3⟩
        rcases Nat.eq_or_lt_of_le hj1 with he | hlt
        · rw [← he] at hj3; exact absurd hmem hj3
        · omega
      obtain ⟨hn1, hn2, hn3⟩ := ih (start + 1) hex
      rw [hstep]
      refine ⟨hn1, by omega, ?_⟩
      intro i hi1 hi2
      rcases Nat.eq_or_lt_of_le hi1 with he | hlt
      · rw [← he]; exact hmem
      · exact hn3 i (by omega) hi2
    · have hstep : countUp base existing start (f + 1) = start := by
        simp [countUp, hmem]
      rw [hstep]
      exact ⟨hmem, Nat.le_refl start, fun i hi1 hi2 => by omega⟩

theorem exists_free_counter (base : String) (existing : List String) :
    ∃ j, 1 ≤ j ∧ j < 1 + (existing.length + 1) ∧ slugWithCounter base j ∉ existing := by
  by_contra hc
  push_neg at hc
  have hlist : ∀ x ∈ (List.range (existing.length + 1)).map
      (fun i => slugWithCounter base (i + 1)), x ∈ existing := by
    intro x hx
    rcases List.mem_map.mp hx with ⟨i, hi, rfl⟩
    have := List.mem_range.mp hi
    exact hc _ (by omega) (by omega)
  have hinj : Function.Injective (fun i => slugWithCounter base (i + 1)) := by
    intro a b hab
    have := slugWithCounter_inj base (a + 1) (b + 1) (by omega) (by omega) hab
    omega
  have hnd : ((List.range (existing.length + 1)).map
      (fun i => slugWithCounter base (i + 1))).Nodup :=
    (List.nodup_range _).map hinj
  have hlen := List.Subperm.length_le (List.Nodup.subperm hnd hlist)
  simp only [List.length_map, List.length_range] at hlen
  omega

/-- C9: `generate_unique_slug(base, existing)` never returns a member of
`existing`; it returns `base` itself when `base` is fresh, and otherwise
`base ++ "-" ++ k` for the smallest positive counter `k` making that
string fresh. -/
theorem generate_unique_slug_spec (base : String) (existing : List String) :
    generate_unique_slug base existing ∉ existing ∧
    (base ∉ existing → generate_unique_slug base existing = base) ∧
    (base ∈ existing → ∃ k, 1 ≤ k ∧
      generate_unique_slug base existing = slugWithCounter base k ∧
      slugWithCounter base k ∉ existing ∧
      ∀ j, 1 ≤ j → j < k → slugWithCounter base j ∈ existing) := by
  by_cases hmem : base ∈ existing
  · obtain ⟨h1, h2, h3⟩ :=
      countUp_spec base existing (existing.length + 1) 1 (exists_free_counter base existing)
    refine ⟨?_, fun h => absurd hmem h, fun _ => ?_⟩
    · unfold generate_unique_slug
      rw [if_pos hmem]
      exact h1
    · exact ⟨countUp base existing 1 (existing.length + 1), h2,
        by unfold generate_unique_slug; rw [if_pos hmem], h1, h3⟩
  · refine ⟨?_, fun _ => ?_, fun h => absurd h hmem⟩
    · unfold generate_unique_slug
      rw [if_neg hmem]
      exact hmem
    · unfold generate_unique_slug
      rw [if_neg hmem]

/-- C9 witness: on base `"a"` with existing slugs `["a", "a-1"]` the
function picks the least free counter, `2`. -/
theorem generate_unique_slug_spec_witness :
    ∃ k, 1 ≤ k ∧ generate_unique_slug "a" ["a", "a-1"] = slugWithCounter "a" k ∧
      slugWithCounter "a" k ∉ ["a", "a-1"] ∧
      ∀ j, 1 ≤ j → j < k → slugWithCounter "a" j ∈ ["a", "a-1"] :=
  (generate_unique_slug_spec "a" ["a", "a-1"]).2.2 (by decide)

/-! ### Sorting and pagination arithmetic -/

theorem length_orderedInsertBy {α : Type} (le : α → α → Bool) (a : α) :
    ∀ l : List α, (orderedInsertBy le a l).length = l.length + 1 := by
  intro l
  induction l with
  | nil => rfl
  | cons b bs ih =>
    simp only [orderedInsertBy]
    split
    · rfl
    · simp only [List.length_cons, ih]

theorem length_insertionSortBy {α : Type} (le : α → α → Bool) :
    ∀ l : List α, (insertionSortBy le l).length = l.length := by
  intro l
  induction l with
  | nil => rfl
  | cons b bs ih =>
    simp only [insertionSortBy, length_orderedInsertBy, ih, List.length_cons]

theorem mem_orderedInsertBy {α : Type} (le : α → α → Bool) (a x : α) :
    ∀ l : List α, x ∈ orderedInsertBy le a l ↔ x = a ∨ x ∈ l := by
  intro l
  induction l with
  | nil => simp [orderedInsertBy]
  | cons b bs ih =>
    simp only [orderedInsertBy]
    split
    · exact List.mem_cons
    · rw [List.mem_cons, ih, List.mem_cons]
      tauto

theorem mem_insertionSortBy {α : Type} (le : α → α → Bool) (x : α) :
    ∀ l : List α, x ∈ insertionSortBy le l ↔ x ∈ l := by
  intro l
  induction l with
  | nil => exact Iff.rfl
  | cons b bs ih =>
    simp only [insertionSortBy]
    rw [mem_orderedInsertBy, ih, List.mem_cons]

theorem totalPagesOf_pos_total {t p : Nat} (h : 0 < totalPagesOf t p) : 0 < t := by
  by_contra hc
  push_neg at hc
  have ht : t = 0 := by omega
  subst ht
  simp [totalPagesOf] at h

theorem totalPages_bounds (t p : Nat) (ht : 0 < t) (hp : 0 < p) :
    0 < totalPagesOf t p ∧ t ≤ totalPagesOf t p * p ∧ (totalPagesOf t p - 1) * p < t := by
  have htp : totalPagesOf t p = (t + p - 1) / p := by simp [totalPagesOf, ht]
  rw [htp]
  have hdm := Nat.div_add_mod (t + p - 1) p
  have hr : (t + p - 1) % p < p := Nat.mod_lt _ hp
  have hco : p * ((t + p - 1) / p) = ((t + p - 1) / p) * p := Nat.mul_comm _ _
  have hsm : ((t + p - 1) / p - 1) * p = ((t + p - 1) / p) * p - p := by
    rw [Nat.sub_mul, Nat.one_mul]
  have h1 : 1 ≤ (t + p - 1) / p := by
    rw [Nat.le_div_iff_mul_le hp]
    omega
  exact ⟨h1, by omega, by omega⟩

theorem max_page_size_eq : settings.max_page_size = 100 := rfl

/-! ### Handler evaluation lemmas -/

theorem companies_handler_error (page k : Nat) (search : Option String) (db : List Company)
    (hk : ¬ k > settings.max_page_size)
    (hcond : page > totalPagesOf (companiesFiltered search db).length k ∧
      totalPagesOf (companiesFiltered search db).length k > 0) :
    get_companies_handler page k search db =
      .error (.badRequest
        s!"Page {page} does not exist. Total pages: {totalPagesOf (companiesFiltered search db).length k}") := by
  simp only [get_companies_handler]
  rw [if_neg hk, if_pos hcond]

theorem companies_handler_ok (page k : Nat) (search : Option String) (db : List Company)
    (hk : ¬ k > settings.max_page_size)
    (hcond : ¬(page > totalPagesOf (companiesFiltered search db).length k ∧
      totalPagesOf (companiesFiltered search db).length k > 0)) :
    get_companies_handler page k search db =
      .ok { companies_total := (companiesFiltered search db).length
            companies := (((companiesSorted search db).drop ((page - 1) * k)).take k).map
              mkCompanyItem
            total_pages := totalPagesOf (companiesFiltered search db).length k
            current_page := page
            per_page := k } := by
  simp only [get_companies_handler]
  rw [if_neg hk, if_neg hcond]

theorem jobs_handler_not_found (cid : Int) (page k : Nat)
    (dbC : List Company) (dbJ : List JobPost)
    (hnf : dbC.filter (fun x => x.co_rowid == cid) = []) :
    get_company_jobs_handler cid page k dbC dbJ =
      .error (.notFound s!"Company with ID {cid} not found") := by
  simp only [get_company_jobs_handler]
  rw [hnf]

theorem jobs_handler_error (cid : Int) (page k : Nat) (c : Company)
    (dbC : List Company) (dbJ : List JobPost)
    (hcid : dbC.filter (fun x => x.co_rowid == cid) = [c])
    (hk : ¬ k > settings.max_page_size)
    (hcond : page > totalPagesOf (jobsForCompany cid dbJ).length k ∧
      totalPagesOf (jobsForCompany cid dbJ).length k > 0) :
    get_company_jobs_handler cid page k dbC dbJ =
      .error (.badRequest
        s!"Page {page} does not exist. Total pages: {totalPagesOf (jobsForCompany cid dbJ).length k}") := by
  simp only [get_company_jobs_handler]
  rw [hcid]
  show (if page > totalPagesOf (jobsForCompany cid dbJ).length
      (if k > settings.max_page_size then settings.max_page_size else k) ∧
      totalPagesOf (jobsForCompany cid dbJ).length
        (if k > settings.max_page_size then settings.max_page_size else k) > 0 then _ else _) = _
  rw [if_neg hk, if_pos hcond]

theorem jobs_handler_ok (cid : Int) (page k : Nat) (c : Company)
    (dbC : List Company) (dbJ : List JobPost)
    (hcid : dbC.filter (fun x => x.co_rowid == cid) = [c])
    (hk : ¬ k > settings.max_page_size)
    (hcond : ¬(page > totalPagesOf (jobsForCompany cid dbJ).length k ∧
      totalPagesOf (jobsForCompany cid dbJ).length k > 0)) :
    get_company_jobs_handler cid page k dbC dbJ =
      .ok { total_position := (jobsForCompany cid dbJ).length
            jobs := (((jobsSorted cid dbJ).drop ((page - 1) * k)).take k).map mkJobItem
            total_pages := totalPagesOf (jobsForCompany cid dbJ).length k
            page_size := k
            current_page := page } := by
  simp only [get_company_jobs_handler]
  rw [hcid]
  show (if page > totalPagesOf (jobsForCompany cid dbJ).length
      (if k > settings.max_page_size then settings.max_page_size else k) ∧
      totalPagesOf (jobsForCompany cid dbJ).length
        (if k > settings.max_page_size then settings.max_page_size else k) > 0 then _ else _) = _
  rw [if_neg hk, if_neg hcond]

/-- C4: for both the company-list and the company-jobs endpoint (the
latter given an existing company), a request with
`page > total_pages > 0` fails with the 400-class error whose message
names the invalid page, and a request with `page == total_pages`
succeeds and returns the final, possibly partial, page of rows: its row
count is exactly `total - (total_pages - 1) * page_size`, which is
positive and at most the page size. -/
theorem page_overflow_policy
    (db dbC : List Company) (dbJ : List JobPost) (cid : Int) (c : Company)
    (page k : Nat) (search : Option String) (tp tpJ : Nat)
    (hpage : 1 ≤ page) (hk1 : 1 ≤ k) (hk2 : k ≤ 100)
    (htp : tp = totalPagesOf (companiesFiltered search db).length k)
    (htpJ : tpJ = totalPagesOf (jobsForCompany cid dbJ).length k)
    (hcid : dbC.filter (fun x => x.co_rowid == cid) = [c]) :
    (0 < tp → tp < page →
      get_companies_handler page k search db =
        .error (.badRequest s!"Page {page} does not exist. Total pages: {tp}")) ∧
    (page = tp →
      ∃ r, get_companies_handler page k search db = .ok r ∧
        r.companies.length = (companiesFiltered search db).length - (tp - 1) * k ∧
        0 < r.companies.length ∧ r.companies.length ≤ k) ∧
    (0 < tpJ → tpJ < page →
      get_company_jobs_handler cid page k dbC dbJ =
        .error (.badRequest s!"Page {page} does not exist. Total pages: {tpJ}")) ∧
    (page = tpJ →
      ∃ r, get_company_jobs_handler cid page k dbC dbJ = .ok r ∧
        r.jobs.length = (jobsForCompany cid dbJ).length - (tpJ - 1) * k ∧
        0 < r.jobs.length ∧ r.jobs.length ≤ k) := by
  subst htp htpJ
  have hk' : ¬ k > settings.max_page_size := by
    rw [max_page_size_eq]
    omega
  refine ⟨?_, ?_, ?_, ?_⟩
  · intro h1 h2
    exact companies_handler_error page k search db hk' ⟨h2, h1⟩
  · intro he
    have h0 : 0 < totalPagesOf (companiesFiltered search db).length k := by omega
    have ht : 0 < (companiesFiltered search db).length := totalPagesOf_pos_total h0
    obtain ⟨hb1, hb2, hb3⟩ :=
      totalPages_bounds (companiesFiltered search db).length k ht (by omega)
    have hsm : (totalPagesOf (companiesFiltered search db).length k - 1) * k =
        totalPagesOf (companiesFiltered search db).length k * k - k := by
      rw [Nat.sub_mul, Nat.one_mul]
    refine ⟨_, companies_handler_ok page k search db hk' (by omega), ?_, ?_, ?_⟩ <;>
      simp only [List.length_map, List.length_take, List.length_drop,
        companiesSorted, length_insertionSortBy, he] <;>
      omega
  · intro h1 h2
    exact jobs_handler_error cid page k c dbC dbJ hcid hk' ⟨h2, h1⟩
  · intro he
    have h0 : 0 < totalPagesOf (jobsForCompany cid dbJ).length k := by omega
    have ht : 0 < (jobsForCompany cid dbJ).length := totalPagesOf_pos_total h0
    obtain ⟨hb1, hb2, hb3⟩ :=
      totalPages_bounds (jobsForCompany cid dbJ).length k ht (by omega)
    have hsm : (totalPagesOf (jobsForCompany cid dbJ).length k - 1) * k =
        totalPagesOf (jobsForCompany cid dbJ).length k * k - k := by
      rw [Nat.sub_mul, Nat.one_mul]
    refine ⟨_, jobs_handler_ok cid page k c dbC dbJ hcid hk' (by omega), ?_, ?_, ?_⟩ <;>
      simp only [List.length_map, List.length_take, List.length_drop,
        jobsSorted, length_insertionSortBy, he] <;>
      omega

/-- C4 witness: one company, page size 1: requesting page 2 of 1 total
page yields the 400-class overflow error. -/
theorem page_overflow_policy_witness :
    get_companies_handler 2 1 none [cSample] =
      .error (.badRequest "Page 2 does not exist. Total pages: 1") := by
  have h := (page_overflow_policy [cSample] [cSample] [jSample] 1 cSample 2 1 none 1 1
    (by decide) (by decide) (by decide) (by decide) (by decide) (by decide)).1
    (by decide) (by decide)
  exact h.trans (by decide)

/-- C10: when zero rows match (total 0, hence `total_pages` 0), both
endpoints succeed for every valid page number, answering an empty item
list with totals 0. -/
theorem empty_page_policy
    (db dbC : List Company) (dbJ : List JobPost) (cid : Int) (c : Company)
    (page k : Nat) (search : Option String)
    (hpage : 1 ≤ page) (hk1 : 1 ≤ k) (hk2 : k ≤ 100) :
    ((companiesFiltered search db).length = 0 →
      get_companies_handler page k search db =
        .ok { companies_total := 0, companies := [], total_pages := 0,
              current_page := page, per_page := k }) ∧
    (dbC.filter (fun x => x.co_rowid == cid) = [c] →
      (jobsForCompany cid dbJ).length = 0 →
      get_company_jobs_handler cid page k dbC dbJ =
        .ok { total_position := 0, jobs := [], total_pages := 0,
              page_size := k, current_page := page }) := by
  have hk' : ¬ k > settings.max_page_size := by
    rw [max_page_size_eq]
    omega
  constructor
  · intro h0
    have hfe : companiesFiltered search db = [] := List.length_eq_zero.mp h0
    have htp : totalPagesOf (companiesFiltered search db).length k = 0 := by
      rw [h0]
      simp [totalPagesOf]
    have hok := companies_handler_ok page k search db hk' (by omega)
    rw [hok]
    simp [companiesSorted, hfe, h0, htp, insertionSortBy, totalPagesOf]
  · intro hcid h0
    have hfe : jobsForCompany cid dbJ = [] := List.length_eq_zero.mp h0
    have htp : totalPagesOf (jobsForCompany cid dbJ).length k = 0 := by
      rw [h0]
      simp [totalPagesOf]
    have hok := jobs_handler_ok cid page k c dbC dbJ hcid hk' (by omega)
    rw [hok]
    simp [jobsSorted, hfe, h0, htp, insertionSortBy, totalPagesOf]

/-- C10 witness: an empty table and a company with no job posts, asked
for page 5. -/
theorem empty_page_policy_witness :
    get_companies_handler 5 10 none [] =
      .ok { companies_total := 0, companies := [], total_pages := 0,
            current_page := 5, per_page := 10 } ∧
    get_company_jobs_handler 2 5 10 [cSample2] [jSample] =
      .ok { total_position := 0, jobs := [], total_pages := 0,
            page_size := 10, current_page := 5 } := by
  have h := empty_page_policy [] [cSample2] [jSample] 2 cSample2 5 10 none
    (by decide) (by decide) (by decide)
  exact ⟨h.1 (by decide), h.2 (by decide) (by decide)⟩

/-- C6: for a `company_id` matching no company row, the jobs handler
answers the 404-class error naming the id for *every* page and
page-size value — the existence check runs before any pagination logic
— and the full request (including FastAPI parameter validation) does so
for every accepted page and page size. -/
theorem jobs_company_not_found
    (dbC : List Company) (dbJ : List JobPost) (cid : Int) (page psize : Nat)
    (habs : ∀ x ∈ dbC, x.co_rowid ≠ cid) :
    get_company_jobs_handler cid page psize dbC dbJ =
      .error (.notFound s!"Company with ID {cid} not found") ∧
    (1 ≤ page → 1 ≤ psize → psize ≤ 100 →
      get_company_jobs_request cid page psize dbC dbJ =
        .error (.notFound s!"Company with ID {cid} not found")) := by
  have hnf : dbC.filter (fun x => x.co_rowid == cid) = [] := by
    rw [List.filter_eq_nil_iff]
    intro x hx
    simpa using habs x hx
  constructor
  · exact jobs_handler_not_found cid page psize dbC dbJ hnf
  · intro h1 h2 h3
    unfold get_company_jobs_request
    rw [if_neg (by omega), if_neg (by rintro (h | h) <;> omega)]
    exact jobs_handler_not_found cid page psize dbC dbJ hnf

/-- C6 witness: company id 7 is absent, so the validated request 404s. -/
theorem jobs_company_not_found_witness :
    get_company_jobs_request 7 1 4 [cSample] [jSample] =
      .error (.notFound "Company with ID 7 not found") := by
  have h := (jobs_company_not_found [cSample] [jSample] 7 1 4 (by decide)).2
    (by decide) (by decide) (by decide)
  exact h.trans (by decide)

/-- C8, counterexample: a request with page size 101 (above the cap) is
rejected by the `le=100` constraint on the query parameter with a
422-class validation error — it does not succeed with a clamped size as
the claim states. -/
theorem per_page_above_cap_rejected :
    get_companies_request 1 101 none [] = .error (.validationError "per_page") := by
  decide

/-- C8 (amended): a page size above the hard cap of 100 is rejected by
FastAPI's `Query(ge=1, le=100)` parameter validation (a 422-class
error), not silently clamped; the in-handler clamp is dead code, so
whenever the handler runs the response reports the requested page size
unchanged. -/
theorem per_page_cap_policy (page k : Nat) (search : Option String) (db : List Company) :
    (1 ≤ page → 100 < k →
      get_companies_request page k search db = .error (.validationError "per_page")) ∧
    (1 ≤ page → 1 ≤ k → k ≤ 100 →
      ∀ r, get_companies_request page k search db = .ok r → r.per_page = k) := by
  constructor
  · intro h1 h2
    unfold get_companies_request
    rw [if_neg (by omega), if_pos (by omega)]
  · intro h1 h2 h3 r hr
    unfold get_companies_request at hr
    rw [if_neg (by omega), if_neg (by rintro (h | h) <;> omega)] at hr
    have hk' : ¬ k > settings.max_page_size := by
      rw [max_page_size_eq]
      omega
    by_cases hcond : page > totalPagesOf (companiesFiltered search db).length k ∧
        totalPagesOf (companiesFiltered search db).length k > 0
    · rw [companies_handler_error page k search db hk' hcond] at hr
      cases hr
    · rw [companies_handler_ok page k search db hk' hcond] at hr
      injection hr with h4
      rw [← h4]

/-- C8 witness: the amended rejection applied at page 2, page size
101. -/
theorem per_page_cap_policy_witness :
    get_companies_request 2 101 none [] = .error (.validationError "per_page") :=
  (per_page_cap_policy 2 101 none []).1 (by decide) (by decide)

/-- The code's description synthesis coincides with the cascade as the
specification words it. -/
theorem companyDescription_eq_spec (c : Company) :
    companyDescription c = descriptionSpec c := by
  unfold companyDescription descriptionSpec
  cases h1 : truthy c.market_size <;> cases h2 : truthy c.company_size <;>
    cases h3 : truthy c.revenue_threshold <;> simp [h1, h2, h3]

/-- The handler clamps its page-size argument once on entry, so running
it on the clamped value is the same computation. -/
theorem get_companies_handler_clamp (page k : Nat) (search : Option String)
    (db : List Company) :
    get_companies_handler page k search db =
      get_companies_handler page
        (if k > settings.max_page_size then settings.max_page_size else k) search db := by
  by_cases h : k > settings.max_page_size
  · rw [if_pos h]
    simp only [get_companies_handler]
    rw [if_pos h, if_neg (Nat.lt_irrefl _)]
  · rw [if_neg h]

theorem mem_companiesFiltered (search : Option String) (db : List Company) (c : Company)
    (h : c ∈ companiesFiltered search db) : c ∈ db := by
  unfold companiesFiltered at h
  cases search with
  | none => exact h
  | some s =>
    rw [apply_ite (c ∈ ·)] at h
    split at h
    · exact List.mem_of_mem_filter h
    · exact h

/-- C5: every company item of a successful list response is the mapped
image of a database row, and its description follows the fixed priority
cascade of the specification (`descriptionSpec`): the labelled
market/company/revenue line when any of those is non-empty — never
pain points in that case — else truncated pain points, else truncated
buying triggers, else the placeholder. -/
theorem description_cascade
    (db : List Company) (page k : Nat) (search : Option String) (r : CompanyListResponse)
    (hr : get_companies_handler page k search db = .ok r) :
    ∀ it ∈ r.companies, ∃ c, c ∈ db ∧ it = mkCompanyItem c ∧
      it.company_description = descriptionSpec c := by
  intro it hit
  rw [get_companies_handler_clamp page k search db] at hr
  set k2 := if k > settings.max_page_size then settings.max_page_size else k with hk2def
  have hk2 : ¬ k2 > settings.max_page_size := by
    rw [hk2def, max_page_size_eq]
    split <;> omega
  by_cases hcond : page > totalPagesOf (companiesFiltered search db).length k2 ∧
      totalPagesOf (companiesFiltered search db).length k2 > 0
  · rw [companies_handler_error page k2 search db hk2 hcond] at hr
    cases hr
  · rw [companies_handler_ok page k2 search db hk2 hcond] at hr
    injection hr with hrec
    rw [← hrec] at hit
    rcases List.mem_map.mp hit with ⟨c, hc, rfl⟩
    refine ⟨c, ?_, rfl, companyDescription_eq_spec c⟩
    have m1 := List.mem_of_mem_take hc
    have m2 := List.mem_of_mem_drop m1
    rw [companiesSorted, mem_insertionSortBy] at m2
    exact mem_companiesFiltered search db c m2

/-- C5 witness: the single-row table gives a response whose one item
carries the cascade description of that row. -/
theorem description_cascade_witness :
    ∃ c, c ∈ [cSample] ∧
      mkCompanyItem cSample = mkCompanyItem c ∧
      (mkCompanyItem cSample).company_description = descriptionSpec c :=
  description_cascade [cSample] 1 10 none
    { companies_total := 1, companies := [mkCompanyItem cSample], total_pages := 1,
      current_page := 1, per_page := 10 }
    (by decide) (mkCompanyItem cSample) (by decide)

theorem find?_first {α : Type} (p : α → Bool) :
    ∀ (pre : List α) (c : α) (post : List α),
      (∀ x ∈ pre, p x = false) → p c = true →
      (pre ++ c :: post).find? p = some c := by
  intro pre
  induction pre with
  | nil =>
    intro c post _ hc
    simp [List.find?_cons, hc]
  | cons a as ih =>
    intro c post hpre hc
    have ha := hpre a (List.mem_cons_self a as)
    simp only [List.cons_append, List.find?_cons, ha]
    exact ih c post (fun x hx => hpre x (List.mem_cons_of_mem _ hx)) hc

/-- C7: the slug lookup returns the first row, in store order, whose
derived slug (via `generate_slug` of the company name) equals the input
slug, and answers the 404-class error naming the slug when no row
matches. -/
theorem slug_lookup_policy (db : List Company) (slug : String) :
    ((∀ x ∈ db, generate_slug (some x.company_name) ≠ slug) →
      get_company_by_slug slug db =
        .error (.notFound s!"Company with slug \x27{slug}\x27 not found")) ∧
    (∀ pre c post, db = pre ++ c :: post →
      (∀ x ∈ pre, generate_slug (some x.company_name) ≠ slug) →
      generate_slug (some c.company_name) = slug →
      get_company_by_slug slug db = .ok (companyDetailOf c slug)) := by
  constructor
  · intro h
    unfold get_company_by_slug
    rw [List.find?_eq_none.mpr (fun x hx => by simpa using h x hx)]
  · intro pre c post hdb hpre hc
    subst hdb
    unfold get_company_by_slug
    rw [find?_first _ pre c post
      (fun x hx => beq_eq_false_iff_ne.mpr (hpre x hx)) (by simp [hc])]

/-- C7 witness: with two rows, the slug of the first row's name finds
that row (first match), and an unmatched slug 404s. -/
theorem slug_lookup_policy_witness :
    get_company_by_slug "acme-widgets" [cSample, cSample2] =
      .ok (companyDetailOf cSample "acme-widgets") :=
  (slug_lookup_policy [cSample, cSample2] "acme-widgets").2 [] cSample [cSample2]
    rfl (by simp) (by decide)

end LeadGen

